import Mathlib

/-!
Shallow embedding of the inference and aggregation core of the
eatc-airlines command-line tool: the latest `gen` action of `src/cli.ts`
(record normalizer and aggregator) together with the geodesy helper
`Direction.fromBearing` and the callsign synthesis `tailToCallsign`.

Modelling conventions:
* JavaScript strings are Lean `String`; `toUpperCase` / `toLowerCase` are
  modelled on the ASCII range (`Char.toUpper` / `Char.toLower`), which
  agrees with JavaScript on the registration, callsign and airline-code
  alphabets the tool manipulates.
* JavaScript numbers occurring in geodesy and scoring are modelled as
  exact rationals `ℚ`; `Math.round` is `⌊x + 1/2⌋` (JavaScript rounds
  half-way cases towards positive infinity) and the JavaScript `%`
  operator is the truncating remainder `jsRem`.
* `null` is modelled by `Option`; the `airline` field, for which the
  source distinguishes `undefined`, `null` and strings, gets the
  dedicated three-state type `AirlineV`.
* a JavaScript `Set` (which preserves insertion order) is a duplicate-free
  `List`: `setAdd` appends only when absent, membership is `contains`.
* `Array.prototype.sort` with a consistent comparator is a stable sort in
  the Node runtimes this tool targets; it is modelled by the stable
  `List.insertionSort`, and `localeCompare` on airline codes by
  code-point order on `String`.
-/

namespace Eatc

/-- Test of the regex `/^\d$/`: a single ASCII digit (code points 48-57). -/
def isDigitCh (c : Char) : Bool := decide (48 ≤ c.toNat ∧ c.toNat ≤ 57)

/-- Test of the regex `/^[A-Z]$/`: a single upper-case ASCII letter (code
points 65-90). -/
def isUpperCh (c : Char) : Bool := decide (65 ≤ c.toNat ∧ c.toNat ≤ 90)

/-- JavaScript `String.prototype.toUpperCase`, ASCII model. -/
def upStr (s : String) : String := String.mk (s.data.map Char.toUpper)

/-- Cycle `alphabet = "ABCDEFGHIJKLMNOPQRSTUVWXYZ"` from the source. -/
def alphabetCycle : List Char := "ABCDEFGHIJKLMNOPQRSTUVWXYZ".data

/-- Cycle `digits = "1234567890"` from the source. -/
def digitsCycle : List Char := "1234567890".data

/-- Character-by-character transliteration of the (already upper-cased)
local part inside `tailToCallsign`: `dn` and `ln` are the two rotating
cursors `indices.number` and `indices.letter`. -/
def translitChars : List Char → Nat → Nat → List Char
  | [], _, _ => []
  | c :: cs, dn, ln =>
    if isDigitCh c then digitsCycle.getD (dn % 10) '0' :: translitChars cs (dn + 1) ln
    else if isUpperCh c then alphabetCycle.getD (ln % 26) 'A' :: translitChars cs dn (ln + 1)
    else c :: translitChars cs dn ln

/-- Embedding of `tailToCallsign(prefix, sample)` from `src/cli.ts`. -/
def tailToCallsign (cty sample : String) : String :=
  upStr cty ++ "-" ++ String.mk (translitChars (upStr sample).data 0 0)

/-- Compass bucket used by the tool. -/
inductive Direction
  | N
  | E
  | S
  | W
  deriving DecidableEq, Repr

/-- Truncation towards zero, as JavaScript division underlying `%` does. -/
def jsTrunc (q : ℚ) : ℤ := if 0 ≤ q then ⌊q⌋ else ⌈q⌉

/-- JavaScript remainder operator `x % m` (sign follows the dividend). -/
def jsRem (x m : ℚ) : ℚ := x - m * (jsTrunc (x / m) : ℚ)

namespace Direction

/-- Embedding of `Direction.fromBearing(bearing)` from the API module. -/
def fromBearing (b : ℚ) : Direction :=
  let n := jsRem (b + 360) 360
  if 225 ≤ n ∧ n < 315 then W
  else if 135 ≤ n ∧ n < 225 then S
  else if 45 ≤ n ∧ n < 135 then E
  else N

/-- Single-letter name of a compass direction, mirroring the class field. -/
def name : Direction → String
  | N => "N"
  | E => "E"
  | S => "S"
  | W => "W"

end Direction

/-- Geographic point with a name (the `Location` class). -/
structure Location where
  name : String
  lat : ℚ
  lon : ℚ
  deriving DecidableEq, Repr

/-- Three-state airline field: the source distinguishes JavaScript
`undefined` (field absent), `null`, and an actual string value. -/
inductive AirlineV
  | undef
  | nullv
  | str (s : String)
  deriving DecidableEq, Repr

/-- Immutable flight record (the `Flight` class); `time` is the epoch
timestamp in milliseconds, `bound` the optional arrival/departure flag. -/
structure Flight where
  id : ℕ
  time : ℤ
  tail : Option String
  type : String
  airline : AirlineV
  callsign : Option String
  toLoc : Location
  fromLoc : Location
  bound : Option String
  deriving DecidableEq, Repr

/-- JavaScript `s.replace(c, "")` with a plain-string pattern: removes only
the first occurrence. -/
def removeFirst (c : Char) : List Char → List Char
  | [] => []
  | x :: xs => if x = c then xs else x :: removeFirst c xs

/-- JavaScript `s.replace("-", "")`. -/
def removeFirstDash (s : String) : String := String.mk (removeFirst '-' s.data)

/-- JavaScript `s.slice(0, s.indexOf("-"))` for `s` containing a dash. -/
def beforeDash (s : String) : String := String.mk (s.data.takeWhile (· ≠ '-'))

/-- JavaScript `s.slice(s.indexOf("-") + 1)` for `s` containing a dash. -/
def afterDash (s : String) : String := String.mk ((s.data.dropWhile (· ≠ '-')).drop 1)

/-- JavaScript `s.includes("-")`. -/
def strContainsDash (s : String) : Bool := s.data.contains '-'

/-- JavaScript `s.endsWith("-")`. -/
def strEndsDash (s : String) : Bool := s.data.getLast? == some '-'

/-- JavaScript `s.startsWith(p)`. -/
def strStartsWith (s p : String) : Bool := p.data.isPrefixOf s.data

/-- JavaScript `s.slice(n)` for a non-negative character index. -/
def strDrop (s : String) (n : ℕ) : String := String.mk (s.data.drop n)

/-- Test of the airline-callsign regex on a whole string: three upper-case
letters, one digit, then zero to three further upper-case letters or
digits. -/
def airlineCsPattern : List Char → Bool
  | a :: b :: c :: d :: rest =>
    isUpperCh a && isUpperCh b && isUpperCh c && isDigitCh d &&
      decide (rest.length ≤ 3) && rest.all (fun x => isUpperCh x || isDigitCh x)
  | _ => false

/-- Test of the regex `/^[A-Z]{4,}/`: at least four leading upper-case
letters. -/
def leadingFourUpper : List Char → Bool
  | a :: b :: c :: d :: _ => isUpperCh a && isUpperCh b && isUpperCh c && isUpperCh d
  | _ => false

/-- Guard of the general-aviation (registration-as-callsign) branch: both
tail and callsign present and equal after `replace("-", "")` and
upper-casing. -/
def gaCondition (f : Flight) : Bool :=
  match f.tail, f.callsign with
  | some t, some c => decide (upStr (removeFirstDash t) = upStr (removeFirstDash c))
  | _, _ => false

/-- Body of the general-aviation branch for a flight whose tail is `t`:
without a dash, look the country code up in the flat country-code list and
discard on failure; with a dash, split at the first dash; in both cases
synthesize the airline via `tailToCallsign`. -/
def gaHandle (pfxs : List String) (f : Flight) (t : String) : Option Flight :=
  if ¬ strContainsDash t then
    match pfxs.find? (fun p => strStartsWith (upStr t) p) with
    | none => none
    | some p => some { f with airline := .str (tailToCallsign p (strDrop (upStr t) p.length)) }
  else some { f with airline := .str (tailToCallsign (beforeDash t) (afterDash t)) }

/-- Synthesized not-a-real-airline code of the four-leading-letters
branch: the upper-cased callsign stripped of characters outside `A`-`Z`
and `0`-`9`, with a trailing dash appended. -/
def dashedCode (c : String) : String :=
  String.mk ((upStr c).data.filter (fun x => isUpperCh x || isDigitCh x)) ++ "-"

/-- Branches of the normalizer that run when the general-aviation branch
was not taken, for a flight with callsign `c`: the airline-callsign branch
(airline `null` or the sentinel) and the four-leading-letters branch. -/
def lateBranches (f : Flight) (c : String) : Option Flight :=
  if f.airline = .str "\x7bPVT\x7d" ∨ f.airline = .nullv then
    if airlineCsPattern c.data then
      some { f with airline := .str (String.mk (c.data.take 3)) }
    else none
  else if leadingFourUpper (upStr c).data then
    some { f with airline := .str (dashedCode c) }
  else some f

/-- Per-flight decision procedure of the record normalizer of the latest
`gen` action: `none` models deletion from the collection, `some` the kept
(possibly corrected) record. -/
def normalizeFlight (helis pfxs : List String) (f : Flight) : Option Flight :=
  if helis.contains (upStr f.type) ∨ (f.airline = .nullv ∧ f.callsign = none)
      ∨ (f.airline = .nullv ∧ f.tail = none) then none
  else
    match f.tail, f.callsign with
    | some t, some c =>
      if upStr (removeFirstDash t) = upStr (removeFirstDash c) then gaHandle pfxs f t
      else lateBranches f c
    | none, some c => lateBranches f c
    | _, none => some f

/-- Normalization pass over the ordered flight collection: the in-place
delete / replace loop over the keyed map is, per flight, a `filterMap`. -/
def normalizePass (helis pfxs : List String) (fs : List Flight) : List Flight :=
  fs.filterMap (normalizeFlight helis pfxs)

/-- NATO phonetic alphabet table `PHONETIC` from the API module. -/
def PHONETIC : Char → Option String
  | 'A' => some "Alpha"
  | 'B' => some "Bravo"
  | 'C' => some "Charlie"
  | 'D' => some "Delta"
  | 'E' => some "Echo"
  | 'F' => some "Foxtrot"
  | 'G' => some "Golf"
  | 'H' => some "Hotel"
  | 'I' => some "India"
  | 'J' => some "Juliet"
  | 'K' => some "Kilo"
  | 'L' => some "Lima"
  | 'M' => some "Mike"
  | 'N' => some "November"
  | 'O' => some "Oscar"
  | 'P' => some "Papa"
  | 'Q' => some "Quebec"
  | 'R' => some "Romeo"
  | 'S' => some "Sierra"
  | 'T' => some "Tango"
  | 'U' => some "Uniform"
  | 'V' => some "Victor"
  | 'W' => some "Whisky"
  | 'X' => some "X-Ray"
  | 'Y' => some "Yankee"
  | 'Z' => some "Zulu"
  | _ => none

/-- Modelled from the spec: the `NUMBERS` digit-to-spoken-word table of the
API module (absent from the provided sources), mapping every digit to its
spoken-number word, used with spaces around the word. -/
def NUMBERS : List (Char × String) :=
  [('0', "zero"), ('1', "one"), ('2', "two"), ('3', "three"), ('4', "four"),
   ('5', "five"), ('6', "six"), ('7', "seven"), ('8', "eight"), ('9', "nine")]

/-- JavaScript `String.prototype.toLowerCase`, ASCII model. -/
def lowStr (s : String) : String := String.mk (s.data.map Char.toLower)

/-- Collapse of runs of spaces to a single space, the `replace(/\s+/g, " ")`
step (the only whitespace this pipeline introduces is the plain space). -/
def collapseSpaces : List Char → List Char
  | [] => []
  | [c] => [c]
  | c :: c' :: cs =>
    if c = ' ' ∧ c' = ' ' then collapseSpaces (c' :: cs)
    else c :: collapseSpaces (c' :: cs)

/-- JavaScript `String.prototype.trim`, space model. -/
def trimSpaces (l : List Char) : List Char :=
  ((l.dropWhile (· = ' ')).reverse.dropWhile (· = ' ')).reverse

/-- Spoken form of a synthesized (dash-suffixed) airline code: strip the
trailing dash, replace every digit by its padded spoken word, trim,
collapse whitespace, lower-case. -/
def spokenDashed (s : String) : String :=
  let p := String.mk s.data.dropLast
  let q := NUMBERS.foldl
    (fun acc dw =>
      String.mk (acc.data.flatMap (fun ch => if ch = dw.1 then (" " ++ dw.2 ++ " ").data else [ch])))
    p
  lowStr (String.mk (collapseSpaces (trimSpaces q.data)))

/-- Fallback spelling of an airline code through the NATO phonetic
alphabet, non-letter characters passing through verbatim. -/
def phoneticSpell (s : String) : String :=
  String.intercalate " " ((upStr s).data.map (fun c => (PHONETIC c).getD (String.mk [c])))

/-- Pronunciation derivation, evaluated once per new cluster. -/
def pronunciationOf (cals : List (String × String)) (a : AirlineV) : Option String :=
  match a with
  | .str s =>
    if strEndsDash s then some (spokenDashed s)
    else if strContainsDash s then none
    else some ((List.lookup (upStr s) cals).getD (phoneticSpell s))
  | _ => none

/-- Aggregation unit (the mutable `merged` entry); the mutable `score`
field, populated only after grouping, is modelled by pairing clusters with
their score in `scored`. -/
structure Cluster where
  airline : AirlineV
  type : List String
  direction : List Direction
  flights : List Flight
  pronunciation : Option String
  deriving DecidableEq, Repr

/-- JavaScript `Set.prototype.add` on an insertion-ordered set. -/
def setAdd {α : Type} [DecidableEq α] (l : List α) (a : α) : List α :=
  if a ∈ l then l else l ++ [a]

/-- Membership test of the first-fit cluster search: same airline, the
type set already contains the flight's type, the direction set already
contains the flight's direction. -/
def clusterMatch (m : Cluster) (f : Flight) (d : Direction) : Bool :=
  decide (m.airline = f.airline) && m.type.contains f.type && m.direction.contains d

/-- Merging of one flight into a matching cluster: append to the member
list and union in the flight's type and direction. -/
def bump (m : Cluster) (f : Flight) (d : Direction) : Cluster :=
  { m with flights := m.flights ++ [f], type := setAdd m.type f.type, direction := setAdd m.direction d }

/-- First-fit update: find the first matching cluster, append the flight
and union in its type and direction; `none` when no cluster matches. -/
def tryAdd (f : Flight) (d : Direction) : List Cluster → Option (List Cluster)
  | [] => none
  | m :: ms =>
    if clusterMatch m f d then
      some (bump m f d :: ms)
    else (tryAdd f d ms).map (m :: ·)

/-- Fresh cluster seeded with a single flight's type and direction. -/
def mkCluster (cals : List (String × String)) (f : Flight) (d : Direction) : Cluster :=
  { airline := f.airline, type := [f.type], direction := [d], flights := [f],
    pronunciation := pronunciationOf cals f.airline }

/-- One step of the aggregation fold; `dir` is the per-flight direction
(the `flight.direction()` call, whose geodesy is opaque to this core). -/
def aggStep (dir : Flight → Direction) (cals : List (String × String))
    (cs : List Cluster) (f : Flight) : List Cluster :=
  if f.airline = .undef then cs
  else
    match tryAdd f (dir f) cs with
    | some cs' => cs'
    | none => cs ++ [mkCluster cals f (dir f)]

/-- Aggregation of the normalized flight collection into clusters. -/
def aggregate (dir : Flight → Direction) (cals : List (String × String))
    (fs : List Flight) : List Cluster :=
  fs.foldl (aggStep dir cals) []

/-- JavaScript `Math.round` on the non-negative values scoring produces:
half-way cases round towards positive infinity. -/
def jsRound (x : ℚ) : ℤ := ⌊x + 1 / 2⌋

/-- Largest member-list size across the clusters, `Math.max(...lengths)`
(only used on a non-empty cluster list). -/
def maxFlights (ms : List Cluster) : ℕ :=
  (ms.map (fun m => m.flights.length)).foldr max 0

/-- Score of a cluster with `len` member flights when the busiest cluster
has `mx`: `Math.round((len / mx) * 1000) / 100`. -/
def score (len mx : ℕ) : ℚ :=
  ((jsRound ((len : ℚ) / (mx : ℚ) * 1000) : ℤ) : ℚ) / 100

/-- Clusters paired with their computed scores. -/
def scored (dir : Flight → Direction) (cals : List (String × String))
    (fs : List Flight) : List (Cluster × ℚ) :=
  (aggregate dir cals fs).map
    (fun m => (m, score m.flights.length (maxFlights (aggregate dir cals fs))))

/-- Test for ending in a trailing dash, `m.airline?.endsWith("-")`. -/
def airlineEndsDash : AirlineV → Bool
  | .str s => strEndsDash s
  | _ => false

/-- Guard of the warning emission in the scoring loop of the latest `gen`
action. -/
def warnCond (cals : List (String × String)) (m : Cluster) (s : ℚ) : Bool :=
  match m.pronunciation with
  | some p =>
    decide ((1 : ℚ) / 200 ≤ s) && !airlineEndsDash m.airline
      && !(cals.map Prod.snd).contains p
  | none => false

/-- Airlines for which a warning line is written to the error channel, in
emission order; the warning channel is separate from the data output by
construction. -/
def warningsOf (dir : Flight → Direction) (cals : List (String × String))
    (fs : List Flight) : List AirlineV :=
  ((scored dir cals fs).filter (fun p => warnCond cals p.1 p.2)).map (fun p => p.1.airline)

/-- Sort key of the first (ascending `localeCompare`) sort, modelled as
code-point order; cluster airlines reaching the listing are always
strings. -/
def airlineStr : AirlineV → String
  | .str s => s
  | _ => ""

/-- Comparator of the first sort: airline code ascending. -/
def leAirline (p q : Cluster × ℚ) : Prop :=
  airlineStr p.1.airline ≤ airlineStr q.1.airline

/-- Comparator of the second sort: score descending. -/
def leScoreDesc (p q : Cluster × ℚ) : Prop := q.2 ≤ p.2

instance : DecidableRel leAirline := fun p q =>
  inferInstanceAs (Decidable (airlineStr p.1.airline ≤ airlineStr q.1.airline))

instance : DecidableRel leScoreDesc := fun p q =>
  inferInstanceAs (Decidable (q.2 ≤ p.2))

/-- Final listing: drop clusters scoring below `0.005`, sort ascending by
airline code, then stable-sort descending by score; each surviving entry
is rendered as one output line by the concluding `map`. -/
def finalListing (dir : Flight → Direction) (cals : List (String × String))
    (fs : List Flight) : List (Cluster × ℚ) :=
  (((scored dir cals fs).filter (fun p => decide ((1 : ℚ) / 200 ≤ p.2))).insertionSort
    leAirline).insertionSort leScoreDesc

/-! Helper lemmas. -/

/-- Length preservation of the local-part transliteration. -/
lemma translit_length (cs : List Char) : ∀ dn ln, (translitChars cs dn ln).length = cs.length := by
  induction cs with
  | nil => intro dn ln; rfl
  | cons c cs ih =>
    intro dn ln
    simp only [translitChars]
    split_ifs <;> simp [ih]

/-- Number of digit characters in a character list. -/
def digitCount (l : List Char) : ℕ := (l.filter (fun c => isDigitCh c)).length

/-- Number of upper-case-letter characters in a character list. -/
def upperCount (l : List Char) : ℕ := (l.filter (fun c => isUpperCh c)).length

/-- Number of ASCII letters (either case) in a character list. -/
def letterCount (l : List Char) : ℕ := (l.filter (fun c => isUpperCh c.toUpper)).length

lemma not_upper_of_digit {c : Char} (h : isDigitCh c = true) : isUpperCh c = false := by
  simp only [isDigitCh, decide_eq_true_eq] at h
  simp only [isUpperCh, decide_eq_false_iff_not]
  omega

/-- Positional characterization of the transliteration: the character at
position `i` is determined by its class and by how many digit and letter
characters precede it, offset by the initial cursors. -/
lemma translit_getD (cs : List Char) : ∀ dn ln i, i < cs.length →
    (translitChars cs dn ln).getD i ' ' =
      (if isDigitCh (cs.getD i ' ') then digitsCycle.getD ((dn + digitCount (cs.take i)) % 10) '0'
       else if isUpperCh (cs.getD i ' ') then
         alphabetCycle.getD ((ln + upperCount (cs.take i)) % 26) 'A'
       else cs.getD i ' ') := by
  induction cs with
  | nil => intro dn ln i h; simp at h
  | cons c cs ih =>
    intro dn ln i h
    cases i with
    | zero =>
      simp only [List.take_zero, digitCount, upperCount, List.filter_nil, List.length_nil,
        Nat.add_zero, List.getD_cons_zero]
      simp only [translitChars]
      split_ifs <;> simp
    | succ i =>
      have h' : i < cs.length := by simpa using h
      by_cases hd : isDigitCh c
      · have e1 : digitCount (c :: cs.take i) = digitCount (cs.take i) + 1 := by
          simp [digitCount, List.filter_cons, hd]
        have e2 : upperCount (c :: cs.take i) = upperCount (cs.take i) := by
          simp [upperCount, List.filter_cons, not_upper_of_digit hd]
        simp only [translitChars, hd, if_true, List.getD_cons_succ, List.take_succ_cons, e1, e2,
          ih (dn + 1) ln i h']
        have e3 : dn + (digitCount (cs.take i) + 1) = dn + 1 + digitCount (cs.take i) := by omega
        rw [e3]
      · by_cases hu : isUpperCh c
        · have e1 : digitCount (c :: cs.take i) = digitCount (cs.take i) := by
            simp [digitCount, List.filter_cons, hd]
          have e2 : upperCount (c :: cs.take i) = upperCount (cs.take i) + 1 := by
            simp [upperCount, List.filter_cons, hu]
          simp only [translitChars, hd, hu, if_true, if_false, Bool.false_eq_true,
            List.getD_cons_succ, List.take_succ_cons, e1, e2, ih dn (ln + 1) i h']
          have e3 : ln + (upperCount (cs.take i) + 1) = ln + 1 + upperCount (cs.take i) := by omega
          rw [e3]
        · have e1 : digitCount (c :: cs.take i) = digitCount (cs.take i) := by
            simp [digitCount, List.filter_cons, hd]
          have e2 : upperCount (c :: cs.take i) = upperCount (cs.take i) := by
            simp [upperCount, List.filter_cons, hu]
          simp only [translitChars, hd, hu, if_false, Bool.false_eq_true, List.getD_cons_succ,
            List.take_succ_cons, e1, e2, ih dn ln i h']

/-- ASCII letter of either case: upper-casing it yields `A`-`Z`. -/
def isLetterCI (c : Char) : Bool := isUpperCh c.toUpper

lemma toUpper_eq_self {c : Char} (h : ¬(97 ≤ c.toNat ∧ c.toNat ≤ 122)) : c.toUpper = c :=
  if_neg (fun hc => h ⟨hc.1, hc.2⟩)

lemma lower_range_cases {c : Char} (h1 : 97 ≤ c.toNat) (h2 : c.toNat ≤ 122) :
    isUpperCh c.toUpper = true ∧ isDigitCh c.toUpper = false := by
  obtain ⟨n, rfl, hn1, hn2⟩ : ∃ n, c = Char.ofNat n ∧ 97 ≤ n ∧ n ≤ 122 :=
    ⟨c.toNat, (Char.ofNat_toNat c).symm, h1, h2⟩
  interval_cases n <;> exact ⟨by decide, by decide⟩

lemma isDigitCh_toUpper (c : Char) : isDigitCh c.toUpper = isDigitCh c := by
  by_cases h : 97 ≤ c.toNat ∧ c.toNat ≤ 122
  · obtain ⟨ha, hb⟩ := h
    rw [(lower_range_cases ha hb).2]
    symm
    simp only [isDigitCh, decide_eq_false_iff_not]
    omega
  · rw [toUpper_eq_self h]

lemma not_digit_of_upper {c : Char} (h : isUpperCh c = true) : isDigitCh c = false := by
  simp only [isUpperCh, decide_eq_true_eq] at h
  simp only [isDigitCh, decide_eq_false_iff_not]
  omega

lemma not_letterCI_of_digit {c : Char} (h : isDigitCh c = true) : isLetterCI c = false := by
  have hr : ¬(97 ≤ c.toNat ∧ c.toNat ≤ 122) := by
    simp only [isDigitCh, decide_eq_true_eq] at h
    omega
  simp only [isLetterCI, toUpper_eq_self hr]
  exact not_upper_of_digit h

lemma toUpper_fix_of_other {c : Char} (hu : isLetterCI c = false) :
    c.toUpper = c := by
  by_cases h : 97 ≤ c.toNat ∧ c.toNat ≤ 122
  · exact absurd (lower_range_cases h.1 h.2).1 (by simp [isLetterCI] at hu; simp [hu])
  · exact toUpper_eq_self h

lemma upStr_data (s : String) : (upStr s).data = s.data.map Char.toUpper := rfl

lemma upStr_getD {s : String} {i : ℕ} (hi : i < s.data.length) :
    (upStr s).data.getD i ' ' = Char.toUpper (s.data.getD i ' ') := by
  have hi' : i < (upStr s).data.length := by simpa [upStr_data] using hi
  rw [List.getD_eq_getElem _ _ hi', List.getD_eq_getElem _ _ hi]
  simp [upStr_data]

lemma digitCount_upStr_take (s : String) (i : ℕ) :
    digitCount ((upStr s).data.take i) = digitCount (s.data.take i) := by
  rw [upStr_data, ← List.map_take]
  simp only [digitCount, List.filter_map, List.length_map]
  congr 1
  apply List.filter_congr
  intro a _
  simp [Function.comp, isDigitCh_toUpper]

lemma upperCount_upStr_take (s : String) (i : ℕ) :
    upperCount ((upStr s).data.take i) = letterCount (s.data.take i) := by
  rw [upStr_data, ← List.map_take]
  simp only [upperCount, letterCount, List.filter_map, List.length_map]
  congr 1

/-! Theorems for the claims. -/

/-- Claim C7: for every bearing value, the direction function buckets the
normalized bearing into East on [45, 135), South on [135, 225), West on
[225, 315), and North otherwise; it is total and yields exactly one of the
four compass buckets. -/
theorem c7_direction_buckets (b : ℚ) :
    (Direction.fromBearing b = Direction.E ↔
      45 ≤ jsRem (b + 360) 360 ∧ jsRem (b + 360) 360 < 135) ∧
    (Direction.fromBearing b = Direction.S ↔
      135 ≤ jsRem (b + 360) 360 ∧ jsRem (b + 360) 360 < 225) ∧
    (Direction.fromBearing b = Direction.W ↔
      225 ≤ jsRem (b + 360) 360 ∧ jsRem (b + 360) 360 < 315) ∧
    (Direction.fromBearing b = Direction.N ↔
      ¬(45 ≤ jsRem (b + 360) 360 ∧ jsRem (b + 360) 360 < 135) ∧
      ¬(135 ≤ jsRem (b + 360) 360 ∧ jsRem (b + 360) 360 < 225) ∧
      ¬(225 ≤ jsRem (b + 360) 360 ∧ jsRem (b + 360) 360 < 315)) := by
  simp only [Direction.fromBearing]
  set n := jsRem (b + 360) 360 with hn
  split_ifs with h1 h2 h3
  · exact ⟨iff_of_false (by decide) (by rintro ⟨ha, hb⟩; exact absurd h1.1 (by linarith)),
      iff_of_false (by decide) (by rintro ⟨ha, hb⟩; exact absurd h1.1 (by linarith)),
      iff_of_true rfl h1,
      iff_of_false (by decide) (by rintro ⟨ha, hb, hc⟩; exact hc h1)⟩
  · exact ⟨iff_of_false (by decide) (by rintro ⟨ha, hb⟩; exact absurd h2.1 (by linarith)),
      iff_of_true rfl h2,
      iff_of_false (by decide) (by intro hc; exact h1 hc),
      iff_of_false (by decide) (by rintro ⟨ha, hb, hc⟩; exact hb h2)⟩
  · exact ⟨iff_of_true rfl h3,
      iff_of_false (by decide) (by intro hc; exact h2 hc),
      iff_of_false (by decide) (by intro hc; exact h1 hc),
      iff_of_false (by decide) (by rintro ⟨ha, hb, hc⟩; exact ha h3)⟩
  · exact ⟨iff_of_false (by decide) (by intro hc; exact h3 hc),
      iff_of_false (by decide) (by intro hc; exact h2 hc),
      iff_of_false (by decide) (by intro hc; exact h1 hc),
      iff_of_true rfl ⟨h3, h2, h1⟩⟩

lemma not_digit_of_letterCI {c : Char} (h : isLetterCI c = true) : isDigitCh c = false := by
  cases hdd : isDigitCh c
  · rfl
  · exact absurd h (by simp [not_letterCI_of_digit hdd])

lemma isUpperCh_toUpper_eq (c : Char) : isUpperCh c.toUpper = isLetterCI c := rfl

/-- Claim C8: the callsign synthesis returns the upper-cased country part,
a dash, and a transliterated local part of the same length as the input,
where the `N`-th digit character encountered (0-indexed, letters not
advancing this counter) maps to position `N mod 10` of the cycle
`1234567890`, the `N`-th letter character maps to position `N mod 26` of
the cycle `A`-`Z`, and non-alphanumeric characters are emitted unchanged,
advancing neither counter. -/
theorem c8_tail_to_callsign (cty sample : String) (i : ℕ) (hi : i < sample.length) :
    tailToCallsign cty sample =
        upStr cty ++ "-" ++ String.mk (translitChars (upStr sample).data 0 0) ∧
    (translitChars (upStr sample).data 0 0).length = sample.length ∧
    (isDigitCh (sample.data.getD i ' ') = true →
      (translitChars (upStr sample).data 0 0).getD i ' ' =
        digitsCycle.getD (digitCount (sample.data.take i) % 10) '0') ∧
    (isLetterCI (sample.data.getD i ' ') = true →
      (translitChars (upStr sample).data 0 0).getD i ' ' =
        alphabetCycle.getD (letterCount (sample.data.take i) % 26) 'A') ∧
    (isDigitCh (sample.data.getD i ' ') = false → isLetterCI (sample.data.getD i ' ') = false →
      (translitChars (upStr sample).data 0 0).getD i ' ' = sample.data.getD i ' ') := by
  have hi0 : i < sample.data.length := hi
  have hiu : i < (upStr sample).data.length := by
    rw [upStr_data, List.length_map]
    exact hi
  have key := translit_getD (upStr sample).data 0 0 i hiu
  simp only [Nat.zero_add] at key
  rw [digitCount_upStr_take, upperCount_upStr_take] at key
  have e1 : isDigitCh ((upStr sample).data.getD i ' ') = isDigitCh (sample.data.getD i ' ') := by
    rw [upStr_getD hi0, isDigitCh_toUpper]
  have e2 : isUpperCh ((upStr sample).data.getD i ' ') = isLetterCI (sample.data.getD i ' ') := by
    rw [upStr_getD hi0, isUpperCh_toUpper_eq]
  rw [e1, e2] at key
  refine ⟨rfl, ?_, ?_, ?_, ?_⟩
  · rw [translit_length, upStr_data, List.length_map]
    rfl
  · intro hd
    rw [key, if_pos (by rw [hd])]
  · intro hl
    have hd : isDigitCh (sample.data.getD i ' ') = false := not_digit_of_letterCI hl
    rw [key, if_neg (by rw [hd]; exact Bool.false_ne_true), if_pos (by rw [hl])]
  · intro hd hl
    rw [key, if_neg (by rw [hd]; exact Bool.false_ne_true),
      if_neg (by rw [hl]; exact Bool.false_ne_true), upStr_getD hi0,
      toUpper_fix_of_other hl]

/-- Per-position class agreement of two local parts: both are digits, both
are letters (of either case), or both are outside those classes and are the
same character. -/
def sameClass (c₁ c₂ : Char) : Prop :=
  (isDigitCh c₁ = true ∧ isDigitCh c₂ = true) ∨
  (isLetterCI c₁ = true ∧ isLetterCI c₂ = true) ∨
  (isDigitCh c₁ = false ∧ isLetterCI c₁ = false ∧ isDigitCh c₂ = false ∧
    isLetterCI c₂ = false ∧ c₁ = c₂)

lemma translit_sameClass {l₁ l₂ : List Char} (h : List.Forall₂ sameClass l₁ l₂) :
    ∀ dn ln, translitChars (l₁.map Char.toUpper) dn ln =
      translitChars (l₂.map Char.toUpper) dn ln := by
  induction h with
  | nil => intro dn ln; rfl
  | @cons a b l₁ l₂ r _ ih =>
    intro dn ln
    rcases r with ⟨h1, h2⟩ | ⟨h1, h2⟩ | ⟨h1a, h1b, _h2a, _h2b, heq⟩
    · have e1 : isDigitCh a.toUpper = true := by rw [isDigitCh_toUpper, h1]
      have e2 : isDigitCh b.toUpper = true := by rw [isDigitCh_toUpper, h2]
      simp only [List.map_cons, translitChars, e1, e2, if_true]
      rw [ih (dn + 1) ln]
    · have d1 : isDigitCh a.toUpper = false := by
        rw [isDigitCh_toUpper]; exact not_digit_of_letterCI h1
      have d2 : isDigitCh b.toUpper = false := by
        rw [isDigitCh_toUpper]; exact not_digit_of_letterCI h2
      have u1 : isUpperCh a.toUpper = true := by rw [isUpperCh_toUpper_eq, h1]
      have u2 : isUpperCh b.toUpper = true := by rw [isUpperCh_toUpper_eq, h2]
      simp only [List.map_cons, translitChars, d1, d2, u1, u2, if_true, Bool.false_eq_true,
        if_false]
      rw [ih dn (ln + 1)]
    · subst heq
      have d1 : isDigitCh a.toUpper = false := by rw [isDigitCh_toUpper]; exact h1a
      have u1 : isUpperCh a.toUpper = false := by rw [isUpperCh_toUpper_eq]; exact h1b
      simp only [List.map_cons, translitChars, d1, u1, Bool.false_eq_true, if_false]
      rw [ih dn ln]

/-- Claim C10: the callsign synthesis is determined by the digit / letter /
other pattern of the local part alone; two local parts of equal length that
agree position-wise on character class and coincide at non-alphanumeric
positions synthesize the same callsign. -/
theorem c10_pattern_determines (cty s₁ s₂ : String)
    (h : List.Forall₂ sameClass s₁.data s₂.data) :
    tailToCallsign cty s₁ = tailToCallsign cty s₂ := by
  unfold tailToCallsign
  rw [upStr_data, upStr_data, translit_sameClass h 0 0]

/-- Concrete instance of claim C8 at the spec's own example. -/
theorem c8_tail_to_callsign_witness :
    1 < ("A1B2" : String).length ∧
    tailToCallsign "G" "A1B2" =
      upStr "G" ++ "-" ++ String.mk (translitChars (upStr "A1B2").data 0 0) :=
  ⟨by decide, (c8_tail_to_callsign "G" "A1B2" 1 (by decide)).1⟩

/-- Removal of every dash, the spec's reading of the tail / callsign
comparison (the source's `replace("-", "")` removes only the first). -/
def removeAllDashes (s : String) : String := String.mk (s.data.filter (fun x => x ≠ '-'))

/-- Fixture location. -/
def locX : Location := { name := "XXXX", lat := 0, lon := 0 }

/-- Fixture location. -/
def locY : Location := { name := "YYYY", lat := 1, lon := 1 }

/-- Fixture flight used by concrete instances. -/
def baseFlight : Flight :=
  { id := 1, time := 0, tail := none, type := "A320", airline := .nullv,
    callsign := none, toLoc := locX, fromLoc := locY, bound := none }

/-- Reduction of the normalizer to the post-general-aviation branches when
the general-aviation guard fails. -/
lemma normalizeFlight_not_ga (helis pfxs : List String) (f : Flight) (c : String)
    (hc : f.callsign = some c)
    (hstep : ¬(helis.contains (upStr f.type) ∨ (f.airline = .nullv ∧ f.callsign = none)
      ∨ (f.airline = .nullv ∧ f.tail = none)))
    (hga : gaCondition f = false) :
    normalizeFlight helis pfxs f = lateBranches f c := by
  simp only [normalizeFlight]
  rw [if_neg hstep]
  cases ht : f.tail with
  | none => rw [hc]
  | some t =>
    have hne : ¬ (upStr (removeFirstDash t) = upStr (removeFirstDash c)) := by
      have h2 := hga
      simp only [gaCondition, ht, hc, decide_eq_false_iff_not] at h2
      exact h2
    rw [hc]
    exact if_neg hne

/-- Reduction of the normalizer to the general-aviation branch when its
guard holds. -/
lemma normalizeFlight_ga_branch (helis pfxs : List String) (f : Flight) (t c : String)
    (ht : f.tail = some t) (hc : f.callsign = some c)
    (hstep : ¬(helis.contains (upStr f.type) ∨ (f.airline = .nullv ∧ f.callsign = none)
      ∨ (f.airline = .nullv ∧ f.tail = none)))
    (hga : gaCondition f = true) :
    normalizeFlight helis pfxs f = gaHandle pfxs f t := by
  have heq : upStr (removeFirstDash t) = upStr (removeFirstDash c) := by
    have h2 := hga
    simp only [gaCondition, ht, hc, decide_eq_true_eq] at h2
    exact h2
  simp only [normalizeFlight]
  rw [if_neg hstep, ht, hc]
  exact if_pos heq

/-- Claim C4 counterexample: a tail with two dashes that equals the
callsign once every dash is removed, yet the normalizer does not take the
general-aviation branch (the source removes only the first dash) and
instead discards the flight. -/
theorem c4_counterexample :
    upStr (removeAllDashes "A-B-1") = upStr (removeAllDashes "AB1") ∧
    gaCondition { baseFlight with tail := some "A-B-1", callsign := some "AB1" } = false ∧
    normalizeFlight [] [] { baseFlight with tail := some "A-B-1", callsign := some "AB1" }
      = none := by
  decide

/-- Claim C4 (amended): the general-aviation branch is taken exactly when
tail and callsign agree after removing the first dash of each and
upper-casing; under that guard the normalizer runs the general-aviation
body, otherwise the later branches. -/
theorem c4_ga_guard (helis pfxs : List String) (f : Flight) (t c : String)
    (ht : f.tail = some t) (hc : f.callsign = some c)
    (hstep : ¬(helis.contains (upStr f.type) ∨ (f.airline = .nullv ∧ f.callsign = none)
      ∨ (f.airline = .nullv ∧ f.tail = none))) :
    (gaCondition f = true ↔ upStr (removeFirstDash t) = upStr (removeFirstDash c)) ∧
    (gaCondition f = true → normalizeFlight helis pfxs f = gaHandle pfxs f t) ∧
    (gaCondition f = false → normalizeFlight helis pfxs f = lateBranches f c) :=
  ⟨by simp [gaCondition, ht, hc],
   fun hga => normalizeFlight_ga_branch helis pfxs f t c ht hc hstep hga,
   fun hga => normalizeFlight_not_ga helis pfxs f c hc hstep hga⟩

/-- Concrete instance of the amended claim C4. -/
theorem c4_ga_guard_witness :
    gaCondition { baseFlight with tail := some "G-ABCD", callsign := some "GABCD" } = true ↔
      upStr (removeFirstDash "G-ABCD") = upStr (removeFirstDash "GABCD") :=
  (c4_ga_guard [] [] { baseFlight with tail := some "G-ABCD", callsign := some "GABCD" }
    "G-ABCD" "GABCD" rfl rfl (by decide)).1

/-- Claim C3 counterexample: the callsign regex is applied
case-sensitively; a lower-case callsign that matches the pattern
case-insensitively is discarded rather than turned into an airline code. -/
theorem c3_counterexample :
    airlineCsPattern (upStr "baw1").data = true ∧
    normalizeFlight [] [] { baseFlight with tail := some "XQ12", callsign := some "baw1" }
      = none := by
  decide

/-- Claim C3 (amended): for a flight that survives the first filter, whose
callsign is present, whose airline is `null` or the sentinel, and that is
not handled by the general-aviation branch, the normalizer sets the
airline to the first three characters of the callsign exactly when the
callsign matches, case-sensitively, three upper-case letters, a digit and
up to three further upper-case letters or digits, and discards the flight
otherwise. -/
theorem c3_airline_callsign (helis pfxs : List String) (f : Flight) (c : String)
    (hc : f.callsign = some c)
    (ha : f.airline = .str "\x7bPVT\x7d" ∨ f.airline = .nullv)
    (hstep : ¬(helis.contains (upStr f.type) ∨ (f.airline = .nullv ∧ f.callsign = none)
      ∨ (f.airline = .nullv ∧ f.tail = none)))
    (hga : gaCondition f = false) :
    (airlineCsPattern c.data = true →
      normalizeFlight helis pfxs f
        = some { f with airline := .str (String.mk (c.data.take 3)) }) ∧
    (airlineCsPattern c.data = false → normalizeFlight helis pfxs f = none) := by
  have hnf := normalizeFlight_not_ga helis pfxs f c hc hstep hga
  constructor
  · intro hm
    rw [hnf]
    simp [lateBranches, if_pos ha, hm]
  · intro hm
    rw [hnf]
    simp [lateBranches, if_pos ha, hm]

/-- Concrete instance of the amended claim C3. -/
theorem c3_airline_callsign_witness :
    airlineCsPattern ("BAW1" : String).data = true ∧
    normalizeFlight [] [] { baseFlight with tail := some "XQ12", callsign := some "BAW1" }
      = some { baseFlight with
          tail := some "XQ12"
          callsign := some "BAW1"
          airline := .str (String.mk (("BAW1" : String).data.take 3)) } :=
  ⟨by decide,
   (c3_airline_callsign [] [] { baseFlight with tail := some "XQ12", callsign := some "BAW1" }
     "BAW1" rfl (Or.inr rfl) (by decide) (by decide)).1 (by decide)⟩

/-- Claim C5 counterexample: with the country-code list `["C", "CU"]` and
the dash-less tail `CU123`, both codes are string-prefixes of the tail and
`CU` is the longer, yet the normalizer synthesizes from `C`, the first
match in list order, and the two choices give different airlines. -/
theorem c5_counterexample :
    strStartsWith (upStr "CU123") "CU" = true ∧
    ("C" : String).length < ("CU" : String).length ∧
    normalizeFlight [] ["C", "CU"]
        { baseFlight with tail := some "CU123", callsign := some "CU123" }
      = some { baseFlight with
          tail := some "CU123"
          callsign := some "CU123"
          airline := .str (tailToCallsign "C" "U123") } ∧
    tailToCallsign "C" "U123" ≠ tailToCallsign "CU" "123" := by
  decide

/-- Claim C5 (amended): for a general-aviation flight whose tail has no
dash, the normalizer takes the first entry of the country-code list, in
list order, that is a string-prefix of the upper-cased tail; when none
matches the flight is discarded, otherwise the airline becomes the
callsign synthesized from that entry and the remainder of the tail. -/
theorem c5_ga_country_code (helis pfxs : List String) (f : Flight) (t c : String)
    (ht : f.tail = some t) (hc : f.callsign = some c)
    (hstep : ¬(helis.contains (upStr f.type) ∨ (f.airline = .nullv ∧ f.callsign = none)
      ∨ (f.airline = .nullv ∧ f.tail = none)))
    (hga : gaCondition f = true)
    (hnd : strContainsDash t = false) :
    (pfxs.find? (fun p => strStartsWith (upStr t) p) = none →
      normalizeFlight helis pfxs f = none) ∧
    (∀ p, pfxs.find? (fun p => strStartsWith (upStr t) p) = some p →
      normalizeFlight helis pfxs f
        = some { f with airline := .str (tailToCallsign p (strDrop (upStr t) p.length)) }) := by
  have hnf := normalizeFlight_ga_branch helis pfxs f t c ht hc hstep hga
  constructor
  · intro hfind
    rw [hnf]
    simp [gaHandle, hnd, hfind]
  · intro p hfind
    rw [hnf]
    simp [gaHandle, hnd, hfind]

/-- Concrete instance of the amended claim C5. -/
theorem c5_ga_country_code_witness :
    List.find? (fun p => strStartsWith (upStr "CU123") p) ["C", "CU"] = some "C" ∧
    normalizeFlight [] ["C", "CU"]
        { baseFlight with tail := some "CU123", callsign := some "CU123" }
      = some { baseFlight with
          tail := some "CU123"
          callsign := some "CU123"
          airline := .str (tailToCallsign "C" (strDrop (upStr "CU123") ("C" : String).length)) } :=
  ⟨by decide,
   (c5_ga_country_code [] ["C", "CU"]
     { baseFlight with tail := some "CU123", callsign := some "CU123" }
     "CU123" "CU123" rfl rfl (by decide) (by decide) (by decide)).2 "C" (by decide)⟩

/-- Origins of a member of a successful first-fit update: it was already a
cluster of the state, or it is the matched cluster with the flight merged
in. -/
lemma tryAdd_mem {f : Flight} {d : Direction} :
    ∀ {cs cs' : List Cluster}, tryAdd f d cs = some cs' → ∀ m' ∈ cs',
      m' ∈ cs ∨ ∃ m ∈ cs, clusterMatch m f d = true ∧ m' = bump m f d := by
  intro cs
  induction cs with
  | nil => intro cs' h; exact Option.noConfusion h
  | cons m ms ih =>
    intro cs' h m' hm'
    rw [tryAdd] at h
    by_cases hc : clusterMatch m f d = true
    · rw [if_pos hc] at h
      cases h
      rcases List.mem_cons.mp hm' with rfl | hm''
      · exact Or.inr ⟨m, List.mem_cons_self m ms, hc, rfl⟩
      · exact Or.inl (List.mem_cons_of_mem m hm'')
    · rw [if_neg hc] at h
      cases htm : tryAdd f d ms with
      | none => rw [htm] at h; exact Option.noConfusion h
      | some ms' =>
        rw [htm] at h
        have h2 : m :: ms' = cs' := Option.some.inj h
        subst h2
        rcases List.mem_cons.mp hm' with rfl | hm''
        · exact Or.inl (List.mem_cons_self m' ms)
        · rcases ih htm m' hm'' with h' | ⟨m₀, hm₀, hc₀, rfl⟩
          · exact Or.inl (List.mem_cons_of_mem m h')
          · exact Or.inr ⟨m₀, List.mem_cons_of_mem m hm₀, hc₀, rfl⟩

/-- Preservation of a cluster property along the aggregation fold, when it
is kept by merging a matching flight and holds of every fresh cluster. -/
lemma foldl_aggStep_invariant (dir : Flight → Direction) (cals : List (String × String))
    (P : Cluster → Prop)
    (hbump : ∀ m f, clusterMatch m f (dir f) = true → P m → P (bump m f (dir f)))
    (hnew : ∀ f, P (mkCluster cals f (dir f))) :
    ∀ (fs : List Flight) (cs : List Cluster), (∀ m ∈ cs, P m) →
      ∀ m ∈ fs.foldl (aggStep dir cals) cs, P m := by
  intro fs
  induction fs with
  | nil => intro cs h m hm; exact h m hm
  | cons f fs ih =>
    intro cs h m hm
    rw [List.foldl_cons] at hm
    refine ih (aggStep dir cals cs f) ?_ m hm
    intro m' hm'
    rw [aggStep] at hm'
    by_cases hu : f.airline = .undef
    · rw [if_pos hu] at hm'
      exact h m' hm'
    · rw [if_neg hu] at hm'
      cases htm : tryAdd f (dir f) cs with
      | none =>
        rw [htm] at hm'
        rcases List.mem_append.mp hm' with h' | h'
        · exact h m' h'
        · rw [List.mem_singleton.mp h']
          exact hnew f
      | some cs' =>
        rw [htm] at hm'
        rcases tryAdd_mem htm m' hm' with h' | ⟨m₀, hm₀, hc₀, rfl⟩
        · exact h m' h'
        · exact hbump m₀ f hc₀ (h m₀ hm₀)

/-- Every cluster the aggregation produces carries exactly the singleton
type and direction sets of its seeding flight, which heads its member
list. -/
lemma aggregate_seeded (dir : Flight → Direction) (cals : List (String × String))
    (fs : List Flight) :
    ∀ m ∈ aggregate dir cals fs,
      ∃ f₀ rest, m.flights = f₀ :: rest ∧ m.type = [f₀.type] ∧ m.direction = [dir f₀] := by
  have hb : ∀ m f, clusterMatch m f (dir f) = true →
      (∃ f₀ rest, m.flights = f₀ :: rest ∧ m.type = [f₀.type] ∧ m.direction = [dir f₀]) →
      ∃ f₀ rest, (bump m f (dir f)).flights = f₀ :: rest ∧
        (bump m f (dir f)).type = [f₀.type] ∧ (bump m f (dir f)).direction = [dir f₀] := by
    rintro m f hmatch ⟨f₀, rest, hfl, hty, hdi⟩
    simp only [clusterMatch, Bool.and_eq_true, decide_eq_true_eq] at hmatch
    obtain ⟨⟨-, hty'⟩, hdi'⟩ := hmatch
    rw [hty] at hty'
    rw [hdi] at hdi'
    have hty0 : f.type = f₀.type := by simpa using hty'
    have hdi0 : dir f = dir f₀ := by simpa using hdi'
    refine ⟨f₀, rest ++ [f], ?_, ?_, ?_⟩
    · simp [bump, hfl]
    · simp [bump, hty, setAdd, hty0]
    · simp [bump, hdi, setAdd, hdi0]
  have hn : ∀ f, ∃ f₀ rest, (mkCluster cals f (dir f)).flights = f₀ :: rest ∧
      (mkCluster cals f (dir f)).type = [f₀.type] ∧
      (mkCluster cals f (dir f)).direction = [dir f₀] :=
    fun f => ⟨f, [], rfl, rfl, rfl⟩
  exact foldl_aggStep_invariant dir cals _ hb hn fs [] (by intro m hm; cases hm)

/-- Claim C9: the aggregation fold keeps every cluster's type set and
direction set the singletons seeded by its first flight; the union step
never adds a new element to either set. -/
theorem c9_singleton_sets (dir : Flight → Direction) (cals : List (String × String))
    (fs : List Flight) (m : Cluster) (hm : m ∈ aggregate dir cals fs) :
    ∃ f₀ rest, m.flights = f₀ :: rest ∧ m.type = [f₀.type] ∧ m.direction = [dir f₀] :=
  aggregate_seeded dir cals fs m hm

/-- Fixture direction assignment. -/
def dirN : Flight → Direction := fun _ => Direction.N

/-- Fixture flight with airline `AAA`. -/
def fixA : Flight := { baseFlight with airline := .str "AAA" }

/-- Fixture flight with airline `BBB`. -/
def fixB : Flight := { baseFlight with airline := .str "BBB" }

/-- Concrete instance of claim C9: a one-flight aggregation. -/
theorem c9_singleton_sets_witness :
    mkCluster [] fixA Direction.N ∈ aggregate dirN [] [fixA] ∧
    ∃ f₀ rest, (mkCluster [] fixA Direction.N).flights = f₀ :: rest ∧
      (mkCluster [] fixA Direction.N).type = [f₀.type] ∧
      (mkCluster [] fixA Direction.N).direction = [dirN f₀] :=
  ⟨by decide, c9_singleton_sets dirN [] [fixA] (mkCluster [] fixA Direction.N) (by decide)⟩

/-- Member counts never exceed the recorded maximum. -/
lemma le_maxFlights : ∀ (ms : List Cluster), ∀ m ∈ ms, m.flights.length ≤ maxFlights ms := by
  intro ms
  induction ms with
  | nil => intro m hm; cases hm
  | cons m₀ ms ih =>
    intro m hm
    rcases List.mem_cons.mp hm with rfl | hm'
    · simp only [maxFlights, List.map_cons, List.foldr_cons]
      exact le_max_left _ _
    · refine le_trans (ih m hm') ?_
      simp only [maxFlights, List.map_cons, List.foldr_cons]
      exact le_max_right _ _

lemma score_nonneg (len mx : ℕ) : 0 ≤ score len mx := by
  unfold score jsRound
  have hx : (0 : ℚ) ≤ (len : ℚ) / (mx : ℚ) * 1000 := by positivity
  have hfl : (0 : ℤ) ≤ ⌊(len : ℚ) / (mx : ℚ) * 1000 + 1 / 2⌋ := by
    apply Int.le_floor.mpr
    push_cast
    linarith
  have : (0 : ℚ) ≤ ((⌊(len : ℚ) / (mx : ℚ) * 1000 + 1 / 2⌋ : ℤ) : ℚ) := by exact_mod_cast hfl
  linarith

lemma score_le_ten {len mx : ℕ} (hle : len ≤ mx) (hmx : 1 ≤ mx) : score len mx ≤ 10 := by
  unfold score jsRound
  have hmx' : (0 : ℚ) < (mx : ℚ) := by exact_mod_cast hmx
  have hdiv : (len : ℚ) / (mx : ℚ) ≤ 1 := by
    rw [div_le_one hmx']
    exact_mod_cast hle
  have hx : (len : ℚ) / (mx : ℚ) * 1000 ≤ 1000 := by nlinarith
  have hfl : ⌊(len : ℚ) / (mx : ℚ) * 1000 + 1 / 2⌋ < 1001 := by
    apply Int.floor_lt.mpr
    push_cast
    linarith
  have hfl' : ⌊(len : ℚ) / (mx : ℚ) * 1000 + 1 / 2⌋ ≤ 1000 := by omega
  have : ((⌊(len : ℚ) / (mx : ℚ) * 1000 + 1 / 2⌋ : ℤ) : ℚ) ≤ 1000 := by exact_mod_cast hfl'
  linarith

lemma score_max {mx : ℕ} (hmx : 1 ≤ mx) : score mx mx = 10 := by
  unfold score jsRound
  have hne : (mx : ℚ) ≠ 0 := by
    have : (0 : ℚ) < (mx : ℚ) := by exact_mod_cast hmx
    exact ne_of_gt this
  rw [div_self hne, one_mul]
  have hfl : (⌊(1000 : ℚ) + 1 / 2⌋ : ℤ) = 1000 := Int.floor_eq_iff.mpr (by norm_num)
  rw [hfl]
  norm_num

/-- Claim C1 (amended): every cluster's score is
`round((memberCount / maxCount) * 1000) / 100`, lies in `[0, 10]` (it can
be zero when the busiest cluster is more than two thousand times busier),
has two-decimal precision, and equals exactly `10` for a cluster of
maximal member count. -/
theorem c1_score_range (dir : Flight → Direction) (cals : List (String × String))
    (fs : List Flight) (m : Cluster) (hm : m ∈ aggregate dir cals fs) :
    score m.flights.length (maxFlights (aggregate dir cals fs))
      = ((jsRound ((m.flights.length : ℚ) / (maxFlights (aggregate dir cals fs) : ℚ) * 1000)
          : ℤ) : ℚ) / 100 ∧
    0 ≤ score m.flights.length (maxFlights (aggregate dir cals fs)) ∧
    score m.flights.length (maxFlights (aggregate dir cals fs)) ≤ 10 ∧
    (∃ k : ℤ, score m.flights.length (maxFlights (aggregate dir cals fs)) = (k : ℚ) / 100) ∧
    (m.flights.length = maxFlights (aggregate dir cals fs) →
      score m.flights.length (maxFlights (aggregate dir cals fs)) = 10) := by
  obtain ⟨f₀, rest, hfl, -, -⟩ := aggregate_seeded dir cals fs m hm
  have hlen : 1 ≤ m.flights.length := by rw [hfl]; simp
  have hle : m.flights.length ≤ maxFlights (aggregate dir cals fs) := le_maxFlights _ m hm
  have hmx : 1 ≤ maxFlights (aggregate dir cals fs) := le_trans hlen hle
  refine ⟨rfl, score_nonneg _ _, score_le_ten hle hmx, ⟨jsRound _, rfl⟩, ?_⟩
  intro heq
  rw [heq]
  exact score_max hmx

/-- Concrete instance of the amended claim C1. -/
theorem c1_score_range_witness :
    mkCluster [] fixA Direction.N ∈ aggregate dirN [] [fixA] ∧
    0 ≤ score (mkCluster [] fixA Direction.N).flights.length
        (maxFlights (aggregate dirN [] [fixA])) ∧
    score (mkCluster [] fixA Direction.N).flights.length
        (maxFlights (aggregate dirN [] [fixA])) ≤ 10 :=
  ⟨by decide,
   (c1_score_range dirN [] [fixA] (mkCluster [] fixA Direction.N) (by decide)).2.1,
   (c1_score_range dirN [] [fixA] (mkCluster [] fixA Direction.N) (by decide)).2.2.1⟩

/-- Cluster accumulated by feeding `n` copies of `fixA`. -/
def clusterA (n : ℕ) : Cluster :=
  { airline := .str "AAA", type := ["A320"], direction := [Direction.N],
    flights := List.replicate n fixA, pronunciation := pronunciationOf [] (.str "AAA") }

/-- Cluster seeded by the single `fixB`. -/
def clusterB : Cluster := mkCluster [] fixB Direction.N

/-- Aggregation input of the claim C1 counterexample: two thousand and one
flights of one airline and a single flight of another. -/
def cexInput : List Flight := List.replicate 2001 fixA ++ [fixB]

lemma dirN_eq (f : Flight) : dirN f = Direction.N := rfl

lemma clusterA_match (n : ℕ) : clusterMatch (clusterA n) fixA Direction.N = true := by
  simp [clusterMatch, clusterA, fixA, baseFlight]

lemma aggStep_clusterA (n : ℕ) : aggStep dirN [] [clusterA n] fixA = [clusterA (n + 1)] := by
  have hbump : bump (clusterA n) fixA Direction.N = clusterA (n + 1) := by
    simp only [bump, clusterA, setAdd, List.mem_singleton]
    refine congrArg₂ ?_ ?_ ?_ <;> try rfl
    all_goals simp [List.replicate_succ', fixA, baseFlight]
  rw [aggStep, if_neg (by simp [fixA, baseFlight]), dirN_eq, tryAdd,
    if_pos (clusterA_match n)]
  rw [hbump]

lemma foldl_clusterA (k : ℕ) : ∀ n,
    List.foldl (aggStep dirN []) [clusterA n] (List.replicate k fixA) = [clusterA (n + k)] := by
  induction k with
  | zero => intro n; simp
  | succ k ih =>
    intro n
    rw [List.replicate_succ, List.foldl_cons, aggStep_clusterA n, ih (n + 1)]
    have h : n + 1 + k = n + (k + 1) := by omega
    rw [h]

lemma aggregate_cex : aggregate dirN [] cexInput = [clusterA 2001, clusterB] := by
  unfold aggregate cexInput
  rw [List.foldl_append]
  have h0 : aggStep dirN [] [] fixA = [clusterA 1] := rfl
  have h1 : List.foldl (aggStep dirN []) [] (List.replicate 2001 fixA) = [clusterA 2001] := by
    rw [show (2001 : ℕ) = 2000 + 1 from rfl, List.replicate_succ, List.foldl_cons, h0,
      foldl_clusterA 2000 1]
  rw [h1, List.foldl_cons, List.foldl_nil]
  rw [aggStep, if_neg (by decide)]
  have hnm : tryAdd fixB (dirN fixB) [clusterA 2001] = none := by
    rw [tryAdd, if_neg ?_]
    · rfl
    · decide
  rw [hnm]
  rfl

lemma score_one_2001 : score 1 2001 = 0 := by
  unfold score jsRound
  have h : (⌊(1 : ℚ) / 2001 * 1000 + 1 / 2⌋ : ℤ) = 0 := Int.floor_eq_iff.mpr (by norm_num)
  rw [show ((1 : ℕ) : ℚ) = (1 : ℚ) from rfl, show ((2001 : ℕ) : ℚ) = (2001 : ℚ) by norm_num, h]
  norm_num

/-- Claim C1 counterexample: in an aggregation where one cluster holds
2001 flights and another a single flight, the smaller cluster's score is
`round((1 / 2001) * 1000) / 100 = 0`, outside the claimed interval
`(0, 10]`. -/
theorem c1_counterexample :
    ¬ (∀ m ∈ aggregate dirN [] cexInput,
        0 < score m.flights.length (maxFlights (aggregate dirN [] cexInput)) ∧
        score m.flights.length (maxFlights (aggregate dirN [] cexInput)) ≤ 10) := by
  intro hcl
  have hB : clusterB ∈ aggregate dirN [] cexInput := by
    rw [aggregate_cex]
    exact List.mem_cons_of_mem _ (List.mem_cons_self _ _)
  obtain ⟨hpos, -⟩ := hcl clusterB hB
  have hmx : maxFlights (aggregate dirN [] cexInput) = 2001 := by
    rw [aggregate_cex]
    simp only [maxFlights, List.map_cons, List.map_nil, List.foldr_cons, List.foldr_nil]
    have e1 : (clusterA 2001).flights.length = 2001 := by
      show (List.replicate 2001 fixA).length = 2001
      exact List.length_replicate _ _
    have e2 : clusterB.flights.length = 1 := rfl
    rw [e1, e2]
    norm_num
  have hBlen : clusterB.flights.length = 1 := rfl
  rw [hmx, hBlen, score_one_2001] at hpos
  exact lt_irrefl 0 hpos

/-- Net order of the final listing: primarily score descending, ties
broken by airline code ascending. -/
def lexLt (p q : Cluster × ℚ) : Prop :=
  q.2 < p.2 ∨ (p.2 = q.2 ∧ airlineStr p.1.airline ≤ airlineStr q.1.airline)

instance : IsTotal (Cluster × ℚ) leAirline := ⟨fun _ _ => le_total _ _⟩

instance : IsTrans (Cluster × ℚ) leAirline := ⟨fun _ _ _ => le_trans⟩

/-- Stability of one ordered insertion: inserting an element that, on
score ties, precedes every element of the list by airline keeps the list
lexicographically ordered. -/
lemma pairwise_lex_orderedInsert (a : Cluster × ℚ) (l : List (Cluster × ℚ))
    (hl : l.Pairwise lexLt)
    (ha : ∀ b ∈ l, a.2 = b.2 → airlineStr a.1.airline ≤ airlineStr b.1.airline) :
    (l.orderedInsert leScoreDesc a).Pairwise lexLt := by
  induction l with
  | nil => simp
  | cons b l ih =>
    rw [List.orderedInsert]
    by_cases hab : leScoreDesc a b
    · rw [if_pos hab]
      refine List.Pairwise.cons ?_ hl
      intro c hc
      have hscc : c.2 ≤ b.2 ∨ c = b := by
        rcases List.mem_cons.mp hc with rfl | hc'
        · exact Or.inr rfl
        · have hbc := (List.pairwise_cons.mp hl).1 c hc'
          rcases hbc with h' | ⟨h', -⟩
          · exact Or.inl (le_of_lt h')
          · exact Or.inl (le_of_eq h'.symm)
      have hca : c.2 ≤ a.2 := by
        rcases hscc with h' | rfl
        · exact le_trans h' hab
        · exact hab
      rcases lt_or_eq_of_le hca with hlt | heq
      · exact Or.inl hlt
      · exact Or.inr ⟨heq.symm, ha c hc heq.symm⟩
    · rw [if_neg hab]
      have hbl := List.pairwise_cons.mp hl
      refine List.Pairwise.cons ?_ (ih hbl.2 (fun b' hb' heq => ha b' (List.mem_cons_of_mem _ hb') heq))
      intro c hc
      rcases (List.mem_orderedInsert leScoreDesc).mp hc with rfl | hc'
      · exact Or.inl (not_le.mp hab)
      · exact hbl.1 c hc'

/-- Stability of the second sort: the stable descending-score insertion
sort of a list whose score ties are already airline-ascending is ordered
by score descending with airline-ascending ties. -/
lemma pairwise_lex_insertionSort (l : List (Cluster × ℚ))
    (h : l.Pairwise (fun a b => a.2 = b.2 → airlineStr a.1.airline ≤ airlineStr b.1.airline)) :
    (l.insertionSort leScoreDesc).Pairwise lexLt := by
  induction l with
  | nil => simp
  | cons a l ih =>
    rw [List.insertionSort]
    have hp := List.pairwise_cons.mp h
    refine pairwise_lex_orderedInsert a _ (ih hp.2) ?_
    intro b hb heq
    exact hp.1 b ((List.mem_insertionSort leScoreDesc).mp hb) heq

/-- Claim C2: the final listing consists of exactly the scored clusters at
or above the `0.005` cutoff, and the two stable sorts leave it ordered by
score descending with ties broken by airline code ascending. -/
theorem c2_final_listing (dir : Flight → Direction) (cals : List (String × String))
    (fs : List Flight) :
    List.Perm (finalListing dir cals fs)
      ((scored dir cals fs).filter (fun p => decide ((1 : ℚ) / 200 ≤ p.2))) ∧
    (finalListing dir cals fs).Pairwise lexLt := by
  constructor
  · exact (List.perm_insertionSort _ _).trans (List.perm_insertionSort _ _)
  · refine pairwise_lex_insertionSort _ ?_
    have hs := List.sorted_insertionSort leAirline
      ((scored dir cals fs).filter (fun p => decide ((1 : ℚ) / 200 ≤ p.2)))
    refine List.Pairwise.imp ?_ hs
    intro a b hab
    exact fun _ => hab

lemma warnCond_none {m : Cluster} (cals : List (String × String)) (s : ℚ)
    (hp : m.pronunciation = none) : warnCond cals m s = false := by
  unfold warnCond
  rw [hp]

lemma warnCond_eq {m : Cluster} (cals : List (String × String)) (s : ℚ) (p : String)
    (hp : m.pronunciation = some p) :
    warnCond cals m s
      = (decide ((1 : ℚ) / 200 ≤ s) && !airlineEndsDash m.airline
          && !(cals.map Prod.snd).contains p) := by
  unfold warnCond
  rw [hp]

/-- Claim C6 counterexample: a sole cluster scores `10`, far above the
claimed `(0, 0.005]` warning window, yet the warning for its airline is
emitted (the source condition is `score >= 0.005`, not membership of
`(0, 0.005]`). -/
theorem c6_counterexample :
    warningsOf dirN [] [fixA] = [AirlineV.str "AAA"] ∧
    scored dirN [] [fixA] = [(mkCluster [] fixA Direction.N, 10)] ∧
    ¬ ((0 : ℚ) < 10 ∧ (10 : ℚ) ≤ 1 / 200) := by
  have haggr : aggregate dirN [] [fixA] = [mkCluster [] fixA Direction.N] := rfl
  have hscore : score 1 1 = 10 := score_max le_rfl
  have hscored : scored dirN [] [fixA] = [(mkCluster [] fixA Direction.N, 10)] := by
    rw [scored, haggr, List.map_cons, List.map_nil]
    rw [show score (mkCluster [] fixA Direction.N).flights.length
        (maxFlights [mkCluster [] fixA Direction.N]) = score 1 1 from rfl, hscore]
  have hpron : (mkCluster [] fixA Direction.N).pronunciation = some "Alpha Alpha Alpha" := rfl
  refine ⟨?_, hscored, by norm_num⟩
  rw [warningsOf, hscored, List.filter_cons]
  rw [warnCond_eq [] 10 "Alpha Alpha Alpha" hpron]
  rw [decide_eq_true (by norm_num : (1 : ℚ) / 200 ≤ 10)]
  rfl

/-- Claim C6 (amended): a warning is emitted for an airline exactly when
some cluster of that airline has a non-null pronunciation, a score of at
least `0.005`, an airline code without a trailing dash, and a
pronunciation absent from the dictionary's values; warnings form a
channel separate from the data listing. -/
theorem c6_warning_guard (dir : Flight → Direction) (cals : List (String × String))
    (fs : List Flight) (a : AirlineV) :
    a ∈ warningsOf dir cals fs ↔
      ∃ m s p, (m, s) ∈ scored dir cals fs ∧ m.airline = a ∧ m.pronunciation = some p ∧
        (1 : ℚ) / 200 ≤ s ∧ airlineEndsDash m.airline = false ∧
        (cals.map Prod.snd).contains p = false := by
  constructor
  · intro ha
    rw [warningsOf] at ha
    obtain ⟨q, hq, rfl⟩ := List.mem_map.mp ha
    obtain ⟨hqs, hcond⟩ := List.mem_filter.mp hq
    cases hp : q.1.pronunciation with
    | none =>
      rw [warnCond_none cals q.2 hp] at hcond
      exact absurd hcond (by simp)
    | some p =>
      rw [warnCond_eq cals q.2 p hp] at hcond
      simp only [Bool.and_eq_true, Bool.not_eq_true', decide_eq_true_eq] at hcond
      obtain ⟨⟨h1, h2⟩, h3⟩ := hcond
      refine ⟨q.1, q.2, p, ?_, rfl, hp, h1, h2, h3⟩
      rw [Prod.mk.eta]
      exact hqs
  · rintro ⟨m, s, p, hms, rfl, hp, h1, h2, h3⟩
    apply List.mem_map.mpr
    refine ⟨(m, s), List.mem_filter.mpr ⟨hms, ?_⟩, rfl⟩
    rw [warnCond_eq cals s p hp, decide_eq_true h1, h2, h3]
    rfl

/-- Concrete instance of claim C10: two pattern-equal local parts. -/
theorem c10_pattern_determines_witness :
    List.Forall₂ sameClass ("A1B2" : String).data ("C3D4" : String).data ∧
    tailToCallsign "G" "A1B2" = tailToCallsign "G" "C3D4" := by
  have hfc : List.Forall₂ sameClass ("A1B2" : String).data ("C3D4" : String).data := by
    show List.Forall₂ sameClass ['A', '1', 'B', '2'] ['C', '3', 'D', '4']
    exact .cons (Or.inr (Or.inl ⟨by decide, by decide⟩))
      (.cons (Or.inl ⟨by decide, by decide⟩)
        (.cons (Or.inr (Or.inl ⟨by decide, by decide⟩))
          (.cons (Or.inl ⟨by decide, by decide⟩) .nil)))
  exact ⟨hfc, c10_pattern_determines "G" "A1B2" "C3D4" hfc⟩

end Eatc
